import Mathlib

/-!
Verification development for the transmission buffer pool and the
unique_function callable wrapper of this repository.

The transmission buffer pool implementation (tx_buffer_pool.cpp and the
headers tx_buffer_pool.h / unique_tx_buffer.h) is not among the provided
source files; only its unit test (tests/unittests/phy/upper/tx_buffer_pool_test.cpp)
is. The pool is therefore modelled from the specification text
(sections 3, 4.1, 4.2, 4.4 of spec.md), and the claims about it are
settled against that model. The unique_function model, by contrast, is a
direct embedding of include/srsran/adt/unique_function.h.
-/

namespace SrsranModel

/-- Modelled from the spec: the composite buffer identifier of section 3
("composite key of (owner id, process id) — both small bounded integers;
equality by value"), matching trx_buffer_identifier of the missing
tx_buffer_pool.h. -/
structure trx_buffer_identifier where
  rnti : Nat
  harq : Nat
deriving DecidableEq

/-- Modelled from the spec: the Codeblock Store of section 4.1 of the missing
tx_buffer_pool implementation. The free list holds the identifiers of the
free codeblocks; content holds the soft-bit content of each codeblock,
indexed by codeblock identifier. -/
structure CodeblockStore where
  free : List Nat
  content : List (List Bool)
deriving DecidableEq

/-- Modelled from the spec: acquire(n) of section 4.1 — "returns n codeblock
handles if at least n are free; otherwise fails (returns none)". -/
def CodeblockStore.acquire (n : Nat) (store : CodeblockStore) :
    Option (List Nat × CodeblockStore) :=
  if n ≤ store.free.length then
    some (store.free.take n, { store with free := store.free.drop n })
  else
    none

/-- Modelled from the spec: release(handles) of section 4.1 — "returns
codeblocks to the free set; never fails". -/
def CodeblockStore.release (ids : List Nat) (store : CodeblockStore) :
    CodeblockStore :=
  { store with free := store.free ++ ids }

/-- Modelled from the spec: resize(existing, new_n) of section 4.1 — "on
shrink, trailing codeblocks are released; on growth, additional codeblocks
are acquired — if growth cannot be satisfied, the assignment is left
unchanged and the operation fails". -/
def CodeblockStore.resize (cur : List Nat) (n : Nat) (store : CodeblockStore) :
    Option (List Nat × CodeblockStore) :=
  if n ≤ cur.length then
    some (cur.take n, CodeblockStore.release (cur.drop n) store)
  else
    match CodeblockStore.acquire (n - cur.length) store with
    | none => none
    | some (extra, store2) => some (cur ++ extra, store2)

/-- Modelled from the spec: one Reservation Slot of section 3 of the missing
reservation table — "identifier (present iff occupied), lock state, indices
of codeblocks currently assigned, last-touch tick". -/
structure ReservationSlot where
  ident : Option trx_buffer_identifier
  locked : Bool
  cbs : List Nat
  last_access : Nat
deriving DecidableEq

/-- Modelled from the spec: a slot of the fixed pool before any reservation
has touched it. -/
def emptySlot : ReservationSlot :=
  { ident := none, locked := false, cbs := [], last_access := 0 }

/-- Modelled from the spec: the whole pool state of the missing
tx_buffer_pool implementation — the fixed array of reservation slots, the
codeblock store, the configured expiration timeout in ticks, and the closed
flag set by stop(). -/
structure PoolState where
  slots : List ReservationSlot
  store : CodeblockStore
  expire_timeout : Nat
  closed : Bool
deriving DecidableEq

/-- Modelled from the spec: the pool right after construction from a
configuration with nof_buffers = N, nof_codeblocks = M and
expire_timeout_slots = T — all N slots free, all M codeblocks free. -/
def initPool (N M T : Nat) : PoolState :=
  { slots := List.replicate N emptySlot
    store := { free := List.range M, content := List.replicate M [] }
    expire_timeout := T
    closed := false }

/-- Index of the first slot occupied by the given identifier, together with
that slot, if any. -/
def findId (id : trx_buffer_identifier) :
    List ReservationSlot → Option (Nat × ReservationSlot)
  | [] => none
  | s :: rest =>
    if s.ident = some id then some (0, s)
    else (findId id rest).map (fun p => (p.1 + 1, p.2))

/-- Index of the first free slot (identifier absent), if any. -/
def findFree : List ReservationSlot → Option Nat
  | [] => none
  | s :: rest =>
    if s.ident = none then some 0
    else (findFree rest).map (· + 1)

/-- Modelled from the spec: reserve(current_tick, id, nof_codeblocks) of
section 4.2 of the missing reservation table, with the closed flag of
section 4.4 checked first. The returned Option Nat is the slot index
wrapped by the unique handle on success, and none (an invalid handle) on
failure. -/
def reserve (tick : Nat) (id : trx_buffer_identifier) (n : Nat)
    (st : PoolState) : PoolState × Option Nat :=
  if st.closed then (st, none)
  else
    match findId id st.slots with
    | some (k, s) =>
      if s.locked then (st, none)
      else if n = s.cbs.length then
        ({ st with
            slots := st.slots.set k { s with locked := true, last_access := tick } },
          some k)
      else
        match CodeblockStore.resize s.cbs n st.store with
        | none => (st, none)
        | some (cbs2, store2) =>
          ({ st with
              slots := st.slots.set k
                { s with locked := true, cbs := cbs2, last_access := tick }
              store := store2 },
            some k)
    | none =>
      match findFree st.slots with
      | none => (st, none)
      | some k =>
        match CodeblockStore.acquire n st.store with
        | none => (st, none)
        | some (cbs2, store2) =>
          ({ st with
              slots := st.slots.set k
                { ident := some id, locked := true, cbs := cbs2, last_access := tick }
              store := store2 },
            some k)

/-- Modelled from the spec: release(slot) of section 4.2 — "mark slot
unlocked, set last-touch = current_tick; content is preserved, not
cleared". Invoked when a unique handle over slot k is destroyed or
reassigned. -/
def release (tick : Nat) (k : Nat) (st : PoolState) : PoolState :=
  match st.slots[k]? with
  | none => st
  | some s =>
    { st with slots := st.slots.set k { s with locked := false, last_access := tick } }

/-- Eviction condition of run_slot for one slot: occupied, unlocked and idle
for at least the expiration timeout. -/
def evicts (T tick : Nat) (s : ReservationSlot) : Bool :=
  s.ident.isSome && !s.locked && decide (T ≤ tick - s.last_access)

/-- Modelled from the spec: the per-slot action of run_slot of section 4.2 —
a locked occupied slot has its last access renewed to the current tick, an
unlocked occupied slot idle for at least the timeout is evicted (identifier
cleared, codeblocks dropped), and every other slot is left unchanged. -/
def slotStep (T tick : Nat) (s : ReservationSlot) : ReservationSlot :=
  if s.ident.isSome then
    if s.locked then { s with last_access := tick }
    else if T ≤ tick - s.last_access then
      { ident := none, locked := false, cbs := [], last_access := s.last_access }
    else s
  else s

/-- Modelled from the spec: run_slot(current_tick) of section 4.2 of the
missing reservation table — every occupied slot is renewed, evicted or left
alone, and the codeblocks of the evicted slots are released to the store. -/
def run_slot (tick : Nat) (st : PoolState) : PoolState :=
  let freed :=
    (st.slots.map (fun s => if evicts st.expire_timeout tick s then s.cbs else [])).flatten
  { st with
      slots := st.slots.map (slotStep st.expire_timeout tick)
      store := CodeblockStore.release freed st.store }

/-- Modelled from the spec: the state change performed by stop() of section
4.4 of the missing pool controller — the closed flag is raised, so that
every later reserve fails before any table mutation. The blocking part of
stop() is a thread-level behaviour outside this state model. -/
def stop (st : PoolState) : PoolState :=
  { st with closed := true }

/-- Write of soft bits into codeblock i of the buffer held at slot k, as
performed through a unique handle between reservation and release. -/
def writeCodeblock (st : PoolState) (k i : Nat) (data : List Bool) : PoolState :=
  match st.slots[k]? with
  | none => st
  | some s =>
    match s.cbs[i]? with
    | none => st
    | some cb =>
      { st with store := { st.store with content := st.store.content.set cb data } }

/-- Sum of the codeblock quotas of all slots (free slots contribute zero). -/
def quota (st : PoolState) : Nat :=
  (st.slots.map (fun s => s.cbs.length)).sum

/-- Reservation of a list of identifiers in order, one reserve call each,
all with the same tick and codeblock count; returns the final state and the
list of returned handles. -/
def reserveAll (tick : Nat) (ids : List trx_buffer_identifier) (n : Nat)
    (st : PoolState) : PoolState × List (Option Nat) :=
  match ids with
  | [] => (st, [])
  | id :: rest =>
    let r := reserve tick id n st
    let r2 := reserveAll tick rest n r.1
    (r2.1, r.2 :: r2.2)

/-- States reachable from a freshly constructed pool with nof_buffers = N,
nof_codeblocks = M and expire_timeout_slots = T through the pool
operations. -/
inductive Reachable (N M T : Nat) : PoolState → Prop where
  | init : Reachable N M T (initPool N M T)
  | step_reserve (tick id n st) :
      Reachable N M T st → Reachable N M T (reserve tick id n st).1
  | step_release (tick k st) :
      Reachable N M T st → Reachable N M T (release tick k st)
  | step_run (tick st) :
      Reachable N M T st → Reachable N M T (run_slot tick st)
  | step_stop (st) :
      Reachable N M T st → Reachable N M T (stop st)
  | step_write (k i data st) :
      Reachable N M T st → Reachable N M T (writeCodeblock st k i data)

end SrsranModel

namespace UniqueFunction

/-- Outcome of invoking the call operator of a unique_function: either the
stored callable returns a value, or the program is deterministically
terminated with a diagnostic message (srsran_terminate), as in
task_details::empty_table_t::call of include/srsran/adt/unique_function.h. -/
inductive CallResult (O : Type) where
  | returned (v : O) : CallResult O
  | terminated (msg : String) : CallResult O
deriving DecidableEq

/-- Abstract state of a unique_function object of
include/srsran/adt/unique_function.h: its oper_ptr either designates the
empty table, the small-buffer table over a functor stored inline, the heap
table over a functor stored behind a pointer, or — after a move into a
smaller-capacity specialization — the heap table over a heap-allocated
unique_function wrapping the original state. -/
inductive UF (F : Type) where
  | empty : UF F
  | small (f : F) : UF F
  | heap (f : F) : UF F
  | heapWrapped (inner : UF F) : UF F

/-- Default construction: oper_ptr is set to the empty table. -/
def UF.default {F : Type} : UF F := UF.empty

/-- The is_empty() observer: true exactly when oper_ptr designates the empty
table. -/
def UF.is_empty {F : Type} : UF F → Bool
  | UF.empty => true
  | _ => false

/-- The is_in_small_buffer() observer: the empty table and the small-buffer
table answer true, the heap table answers false. -/
def UF.is_in_small_buffer {F : Type} : UF F → Bool
  | UF.empty => true
  | UF.small _ => true
  | UF.heap _ => false
  | UF.heapWrapped _ => false

/-- The move constructor unique_function(unique_function&& rhs) for a
destination of capacity cap1 and a source of capacity cap2: when cap1 is at
least cap2 the vtable pointer and buffer are transferred and rhs is pointed
at the empty table; otherwise a heap-stored source is transferred the same
way, and a small-buffer source is moved into a heap-allocated
unique_function (leaving rhs empty through the equal-capacity move). The
result is the pair (new object, rhs after the move). -/
def UF.moveConstruct {F : Type} (cap1 cap2 : Nat) (rhs : UF F) : UF F × UF F :=
  if cap2 ≤ cap1 then (rhs, UF.empty)
  else if rhs.is_in_small_buffer then (UF.heapWrapped rhs, UF.empty)
  else (rhs, UF.empty)

/-- Move assignment operator=(unique_function&& rhs): the current functor is
destroyed, then the adoption proceeds exactly as in the move constructor.
The result is the pair (new value of the assigned-to object, rhs after the
move). -/
def UF.moveAssign {F : Type} (cap1 cap2 : Nat) (_l rhs : UF F) : UF F × UF F :=
  UF.moveConstruct cap1 cap2 rhs

/-- The call operator: dispatch through oper_ptr. The empty table terminates
the program with the bad-function-call diagnostic; the small-buffer and
heap tables invoke the stored functor; the heap-wrapper table invokes the
wrapped unique_function, which dispatches again. -/
def UF.call {I O : Type} : UF (I → O) → I → CallResult O
  | UF.empty, _ => CallResult.terminated "bad function call (cause: function ptr is empty)"
  | UF.small f, x => CallResult.returned (f x)
  | UF.heap f, x => CallResult.returned (f x)
  | UF.heapWrapped inner, x => UF.call inner x

end UniqueFunction

namespace SrsranModel

/-- C1: for every pool state and every identifier id that currently maps to
an occupied, locked reservation slot, reserve(tick, id, n) fails for every
tick and every codeblock count n, returning an empty (invalid) handle, so a
second handle is never produced for an in-use identifier. -/
theorem C1_reserve_fails_while_locked (st : PoolState) (tick : Nat)
    (id : trx_buffer_identifier) (n k : Nat) (s : ReservationSlot)
    (hfind : findId id st.slots = some (k, s)) (hlock : s.locked = true) :
    (reserve tick id n st).2 = none := by
  by_cases hc : st.closed
  · simp [reserve, hc]
  · simp [reserve, hc, hfind, hlock]

/-- Demonstration state for C1: a one-slot pool whose only slot is occupied
by identifier (7, 1) and locked. -/
def lockedDemoState : PoolState :=
  { slots := [{ ident := some ⟨7, 1⟩, locked := true, cbs := [0], last_access := 2 }]
    store := { free := [], content := [[]] }
    expire_timeout := 4
    closed := false }

/-- Witness for C1 at a concrete pool: reserving the locked identifier
fails. -/
theorem C1_reserve_fails_while_locked_witness :
    (reserve 3 ⟨7, 1⟩ 2 lockedDemoState).2 = none :=
  C1_reserve_fails_while_locked lockedDemoState 3 ⟨7, 1⟩ 2 0
    { ident := some ⟨7, 1⟩, locked := true, cbs := [0], last_access := 2 }
    (by decide) (by decide)

/-- C7: every failed reserve call returns the empty handle and leaves the
whole pool state — slot bindings, lock states, last-touch values, codeblock
assignments and store — unchanged. -/
theorem C7_failed_reserve_leaves_state_unchanged (tick : Nat)
    (id : trx_buffer_identifier) (n : Nat) (st : PoolState)
    (h : (reserve tick id n st).2 = none) :
    (reserve tick id n st).1 = st := by
  by_cases hc : st.closed
  · simp [reserve, hc]
  · rcases hfind : findId id st.slots with _ | ⟨k, s⟩
    · rcases hfree : findFree st.slots with _ | k
      · simp [reserve, hc, hfind, hfree]
      · rcases hacq : CodeblockStore.acquire n st.store with _ | ⟨cbs2, store2⟩
        · simp [reserve, hc, hfind, hfree, hacq]
        · simp [reserve, hc, hfind, hfree, hacq] at h
    · by_cases hl : s.locked
      · simp [reserve, hc, hfind, hl]
      · by_cases hn : n = s.cbs.length
        · simp [reserve, hc, hfind, hl, hn] at h
        · rcases hres : CodeblockStore.resize s.cbs n st.store with _ | ⟨cbs2, store2⟩
          · simp [reserve, hc, hfind, hl, hn, hres]
          · simp [reserve, hc, hfind, hl, hn, hres] at h

/-- Witness for C7 at a concrete pool: a reserve that fails on a zero-slot
pool leaves the state unchanged. -/
theorem C7_failed_reserve_leaves_state_unchanged_witness :
    (reserve 0 ⟨0, 0⟩ 1 (initPool 0 0 10)).1 = initPool 0 0 10 :=
  C7_failed_reserve_leaves_state_unchanged 0 ⟨0, 0⟩ 1 (initPool 0 0 10) (by decide)

/-- C8: stop() raises the closed flag; on a closed pool every reserve call
fails immediately and mutates nothing, regardless of capacity; and no pool
operation ever lowers the closed flag, so every reserve subsequent to
stop() fails. -/
theorem C8_reserve_fails_after_stop (tick t1 t2 : Nat)
    (id : trx_buffer_identifier) (n k : Nat) (st : PoolState) :
    (stop st).closed = true ∧
    (st.closed = true → reserve tick id n st = (st, none)) ∧
    (reserve tick id n st).1.closed = st.closed ∧
    (release t1 k st).closed = st.closed ∧
    (run_slot t2 st).closed = st.closed := by
  refine ⟨rfl, fun h => by simp [reserve, h], ?_, ?_, ?_⟩
  · by_cases hc : st.closed
    · simp [reserve, hc]
    · rcases hfind : findId id st.slots with _ | ⟨j, s⟩
      · rcases hfree : findFree st.slots with _ | j
        · simp [reserve, hc, hfind, hfree]
        · rcases hacq : CodeblockStore.acquire n st.store with _ | ⟨cbs2, store2⟩
          · simp [reserve, hc, hfind, hfree, hacq]
          · simp [reserve, hc, hfind, hfree, hacq]
      · by_cases hl : s.locked
        · simp [reserve, hc, hfind, hl]
        · by_cases hn : n = s.cbs.length
          · simp [reserve, hc, hfind, hl, hn]
          · rcases hres : CodeblockStore.resize s.cbs n st.store with _ | ⟨cbs2, store2⟩
            · simp [reserve, hc, hfind, hl, hn, hres]
            · simp [reserve, hc, hfind, hl, hn, hres]
  · unfold release
    rcases st.slots[k]? with _ | s <;> rfl
  · rfl

/-- Witness for C8 at a concrete pool: after stop(), reserving on a pool
with free capacity fails and changes nothing. -/
theorem C8_reserve_fails_after_stop_witness :
    reserve 0 ⟨0, 0⟩ 1 (stop (initPool 4 4 10)) = (stop (initPool 4 4 10), none) :=
  (C8_reserve_fails_after_stop 0 0 0 ⟨0, 0⟩ 1 0 (stop (initPool 4 4 10))).2.1 (by decide)

/-- C4: a locked slot is never evicted by run_slot, no matter how many
ticks elapse — run_slot only renews its last access to the current tick,
keeping identifier, lock and codeblocks intact — and releasing the handle
stamps the slot with the release tick, so the grace period is measured from
the release tick and not from the original reservation tick. -/
theorem C4_locked_slot_never_evicted (st : PoolState) (k : Nat)
    (s : ReservationSlot) (tick t2 : Nat) (hget : st.slots[k]? = some s)
    (hocc : s.ident.isSome = true) (hlock : s.locked = true) :
    (run_slot tick st).slots[k]? = some { s with last_access := tick } ∧
    (release t2 k st).slots[k]? = some { s with locked := false, last_access := t2 } := by
  constructor
  · simp [run_slot, hget, slotStep, hocc, hlock]
  · have hk : k < st.slots.length := by
      rcases List.getElem?_eq_some.1 hget with ⟨h, _⟩
      exact h
    simp [release, hget, List.getElem?_set_self hk]

/-- Witness for C4 at a concrete pool: running the housekeeping tick far
past the timeout leaves the locked slot occupied and renewed. -/
theorem C4_locked_slot_never_evicted_witness :
    (run_slot 100 lockedDemoState).slots[0]? =
      some { ident := some ⟨7, 1⟩, locked := true, cbs := [0], last_access := 100 } :=
  (C4_locked_slot_never_evicted lockedDemoState 0
    { ident := some ⟨7, 1⟩, locked := true, cbs := [0], last_access := 2 }
    100 0 (by decide) (by decide) (by decide)).1

/-- Identifiers absent from every slot of a table are not found by
findId. -/
theorem findId_eq_none (id : trx_buffer_identifier) :
    ∀ l : List ReservationSlot, (∀ s ∈ l, s.ident ≠ some id) → findId id l = none := by
  intro l
  induction l with
  | nil => intro _; rfl
  | cons s0 rest ih =>
    intro h
    unfold findId
    rw [if_neg (h s0 (List.mem_cons_self s0 rest))]
    rw [ih (fun s hs => h s (List.mem_cons_of_mem s0 hs))]
    rfl

/-- Identifiers not found by findId are absent from every slot. -/
theorem findId_none_not_mem (id : trx_buffer_identifier) :
    ∀ l : List ReservationSlot, findId id l = none →
      ∀ s ∈ l, s.ident ≠ some id := by
  intro l
  induction l with
  | nil => intro _ s hs; simp at hs
  | cons s0 rest ih =>
    intro h s hs
    unfold findId at h
    by_cases h0 : s0.ident = some id
    · rw [if_pos h0] at h; simp at h
    · rw [if_neg h0] at h
      have hrest : findId id rest = none := by
        rcases hr : findId id rest with _ | p
        · rfl
        · rw [hr] at h; simp at h
      rcases List.mem_cons.1 hs with h1 | h1
      · rw [h1]; exact h0
      · exact ih hrest s h1

/-- The per-slot action of the housekeeping tick either keeps the
identifier of a slot or clears it; it never introduces one. -/
theorem slotStep_ident (T tick : Nat) (s : ReservationSlot) :
    (slotStep T tick s).ident = s.ident ∨ (slotStep T tick s).ident = none := by
  unfold slotStep
  split
  · split
    · left; rfl
    · split
      · right; rfl
      · left; rfl
  · left; rfl

/-- A table holding a free slot at some valid index lets findFree find a
free slot. -/
theorem findFree_of_free :
    ∀ (l : List ReservationSlot) (k : Nat) (s : ReservationSlot),
      l[k]? = some s → s.ident = none → ∃ j, findFree l = some j := by
  intro l
  induction l with
  | nil => intro k s h _; simp at h
  | cons s0 rest ih =>
    intro k s h hnone
    unfold findFree
    by_cases h0 : s0.ident = none
    · exact ⟨0, by rw [if_pos h0]⟩
    · rw [if_neg h0]
      cases k with
      | zero =>
        have hss : s0 = s := by simpa using h
        exact absurd (hss ▸ hnone) h0
      | succ k2 =>
        have h2 : rest[k2]? = some s := by simpa using h
        obtain ⟨j, hj⟩ := ih k2 s h2 hnone
        exact ⟨j + 1, by rw [hj]; rfl⟩

/-- C3: an occupied, unlocked slot survives run_slot(tick) unchanged while
tick minus its last-unlock tick is below the expiration timeout, and is
evicted exactly when that difference reaches the timeout — its identifier
is cleared, its codeblock assignment dropped, and its codeblocks are
returned to the free set of the store; the freed capacity can then satisfy
a reservation that previously failed: a reserve of a fresh identifier that
failed on the full pool succeeds on the post-eviction pool whenever the
freed store covers the request. -/
theorem C3_unlocked_slot_expires_at_timeout (st : PoolState) (k : Nat)
    (s : ReservationSlot) (tick : Nat) (hget : st.slots[k]? = some s)
    (hocc : s.ident.isSome = true) (hunlock : s.locked = false) :
    (tick - s.last_access < st.expire_timeout →
      (run_slot tick st).slots[k]? = some s) ∧
    (st.expire_timeout ≤ tick - s.last_access →
      (run_slot tick st).slots[k]? =
        some { ident := none, locked := false, cbs := [], last_access := s.last_access } ∧
      (∀ c ∈ s.cbs, c ∈ (run_slot tick st).store.free) ∧
      (∀ t2 id2 n2, st.closed = false → findId id2 st.slots = none →
        findFree st.slots = none →
        n2 ≤ (run_slot tick st).store.free.length →
        (reserve t2 id2 n2 st).2 = none ∧
        ((reserve t2 id2 n2 (run_slot tick st)).2).isSome = true)) := by
  constructor
  · intro h
    simp [run_slot, hget, slotStep, hocc, hunlock, Nat.not_le.2 h]
  · intro h
    have hs : s ∈ st.slots := List.getElem?_mem hget
    have hev : evicts st.expire_timeout tick s = true := by
      simp [evicts, hocc, hunlock, h]
    have hev2 : (run_slot tick st).slots[k]? =
        some { ident := none, locked := false, cbs := [], last_access := s.last_access } := by
      simp [run_slot, hget, slotStep, hocc, hunlock, h]
    refine ⟨hev2, ?_, ?_⟩
    · intro c hc
      refine List.mem_append.2 (Or.inr ?_)
      refine List.mem_flatten.2 ⟨s.cbs, ?_, hc⟩
      have hmem :=
        List.mem_map_of_mem (fun s => if evicts st.expire_timeout tick s then s.cbs else []) hs
      simpa [hev] using hmem
    · intro t2 id2 n2 hcl hid2 hff hn2
      refine ⟨by simp [reserve, hcl, hid2, hff], ?_⟩
      have hcl2 : (run_slot tick st).closed = false := by
        simpa [run_slot] using hcl
      have hid2b : findId id2 (run_slot tick st).slots = none := by
        apply findId_eq_none
        intro s2 hs2
        have hs2b : s2 ∈ st.slots.map (slotStep st.expire_timeout tick) := by
          simpa [run_slot] using hs2
        obtain ⟨s0, hs0, rfl⟩ := List.mem_map.1 hs2b
        have hni := findId_none_not_mem id2 st.slots hid2 s0 hs0
        rcases slotStep_ident st.expire_timeout tick s0 with he | he
        · rw [he]; exact hni
        · rw [he]; simp
      obtain ⟨j, hj⟩ := findFree_of_free (run_slot tick st).slots k
        { ident := none, locked := false, cbs := [], last_access := s.last_access }
        hev2 rfl
      simp [reserve, hcl2, hid2b, hj, CodeblockStore.acquire, hn2]

/-- A slot found by findId carries the identifier searched for. -/
theorem findId_ident (id : trx_buffer_identifier) :
    ∀ (l : List ReservationSlot) (k : Nat) (s : ReservationSlot),
      findId id l = some (k, s) → s.ident = some id := by
  intro l
  induction l with
  | nil => intro k s h; simp [findId] at h
  | cons s0 rest ih =>
    intro k s h
    unfold findId at h
    by_cases h0 : s0.ident = some id
    · rw [if_pos h0] at h
      obtain ⟨hk, hs⟩ := Prod.mk.injEq 0 s0 k s ▸ Option.some.inj h
      exact hs ▸ h0
    · rw [if_neg h0] at h
      rcases hr : findId id rest with _ | ⟨k2, s2⟩
      · rw [hr] at h; simp at h
      · rw [hr] at h
        simp only [Option.map_some'] at h
        obtain ⟨hk, hs⟩ := Prod.mk.injEq (k2 + 1) s2 k s ▸ Option.some.inj h
        exact hs ▸ ih k2 s2 hr

/-- The index found by findId is a valid index, designating the found
slot. -/
theorem findId_isLt (id : trx_buffer_identifier) :
    ∀ (l : List ReservationSlot) (k : Nat) (s : ReservationSlot),
      findId id l = some (k, s) → k < l.length ∧ l[k]? = some s := by
  intro l
  induction l with
  | nil => intro k s h; simp [findId] at h
  | cons s0 rest ih =>
    intro k s h
    unfold findId at h
    by_cases h0 : s0.ident = some id
    · rw [if_pos h0] at h
      obtain ⟨hk, hs⟩ := Prod.mk.injEq 0 s0 k s ▸ Option.some.inj h
      subst hk
      exact ⟨Nat.succ_pos _, by simp [hs]⟩
    · rw [if_neg h0] at h
      rcases hr : findId id rest with _ | ⟨k2, s2⟩
      · rw [hr] at h; simp at h
      · rw [hr] at h
        simp only [Option.map_some'] at h
        obtain ⟨hk, hs⟩ := Prod.mk.injEq (k2 + 1) s2 k s ▸ Option.some.inj h
        obtain ⟨ih1, ih2⟩ := ih k2 s2 hr
        subst hk
        exact ⟨Nat.succ_lt_succ ih1, by simpa [hs] using ih2⟩

/-- Overwriting the slot found by findId with a slot that still carries the
identifier keeps findId pointing at the same index. -/
theorem findId_set_found (id : trx_buffer_identifier) (v : ReservationSlot)
    (hv : v.ident = some id) :
    ∀ (l : List ReservationSlot) (k : Nat) (s : ReservationSlot),
      findId id l = some (k, s) → findId id (l.set k v) = some (k, v) := by
  intro l
  induction l with
  | nil => intro k s h; simp [findId] at h
  | cons s0 rest ih =>
    intro k s h
    unfold findId at h
    by_cases h0 : s0.ident = some id
    · rw [if_pos h0] at h
      obtain ⟨hk, hs⟩ := Prod.mk.injEq 0 s0 k s ▸ Option.some.inj h
      subst hk
      simp [findId, hv]
    · rw [if_neg h0] at h
      rcases hr : findId id rest with _ | ⟨k2, s2⟩
      · rw [hr] at h; simp at h
      · rw [hr] at h
        simp only [Option.map_some'] at h
        obtain ⟨hk, hs⟩ := Prod.mk.injEq (k2 + 1) s2 k s ▸ Option.some.inj h
        subst hk
        simp [findId, h0, ih k2 s2 hr]

/-- Binding an identifier absent from the table into any valid slot makes
findId point at that slot. -/
theorem findId_set_none (id : trx_buffer_identifier) (v : ReservationSlot)
    (hv : v.ident = some id) :
    ∀ (l : List ReservationSlot) (k : Nat),
      findId id l = none → k < l.length → findId id (l.set k v) = some (k, v) := by
  intro l
  induction l with
  | nil => intro k h hk; simp at hk
  | cons s0 rest ih =>
    intro k h hk
    unfold findId at h
    by_cases h0 : s0.ident = some id
    · rw [if_pos h0] at h; simp at h
    · rw [if_neg h0] at h
      have hrest : findId id rest = none := by
        rcases hr : findId id rest with _ | p
        · rfl
        · rw [hr] at h; simp at h
      cases k with
      | zero => simp [findId, hv]
      | succ k2 =>
        have hk2 : k2 < rest.length := Nat.lt_of_succ_lt_succ (by simpa using hk)
        simp [findId, h0, ih k2 hrest hk2]

/-- The index found by findFree is a valid index. -/
theorem findFree_isLt :
    ∀ (l : List ReservationSlot) (k : Nat), findFree l = some k → k < l.length := by
  intro l
  induction l with
  | nil => intro k h; simp [findFree] at h
  | cons s0 rest ih =>
    intro k h
    unfold findFree at h
    by_cases h0 : s0.ident = none
    · rw [if_pos h0] at h
      cases Option.some.inj h
      exact Nat.succ_pos _
    · rw [if_neg h0] at h
      rcases hr : findFree rest with _ | k2
      · rw [hr] at h; simp at h
      · rw [hr] at h
        simp only [Option.map_some'] at h
        cases Option.some.inj h
        exact Nat.succ_lt_succ (ih k2 hr)

/-- A successful acquire hands out exactly the requested number of
codeblocks. -/
theorem acquire_length (n : Nat) (store : CodeblockStore)
    (cbs2 : List Nat) (store2 : CodeblockStore)
    (h : CodeblockStore.acquire n store = some (cbs2, store2)) :
    cbs2.length = n := by
  unfold CodeblockStore.acquire at h
  by_cases hn : n ≤ store.free.length
  · rw [if_pos hn] at h
    obtain ⟨h1, h2⟩ := Prod.mk.injEq _ _ _ _ ▸ Option.some.inj h
    subst h1
    simpa using hn
  · rw [if_neg hn] at h; simp at h

/-- A successful resize leaves the assignment with exactly the requested
number of codeblocks. -/
theorem resize_length (cur : List Nat) (n : Nat) (store : CodeblockStore)
    (cbs2 : List Nat) (store2 : CodeblockStore)
    (h : CodeblockStore.resize cur n store = some (cbs2, store2)) :
    cbs2.length = n := by
  unfold CodeblockStore.resize at h
  by_cases hn : n ≤ cur.length
  · rw [if_pos hn] at h
    obtain ⟨h1, h2⟩ := Prod.mk.injEq _ _ _ _ ▸ Option.some.inj h
    subst h1
    simpa using hn
  · rw [if_neg hn] at h
    rcases ha : CodeblockStore.acquire (n - cur.length) store with _ | ⟨extra, store3⟩
    · rw [ha] at h; simp at h
    · rw [ha] at h
      obtain ⟨h1, h2⟩ := Prod.mk.injEq _ _ _ _ ▸ Option.some.inj h
      subst h1
      have := acquire_length _ _ _ _ ha
      simp [this]
      omega

/-- Writing soft bits through a handle touches only the store content:
slot metadata and the closed flag are untouched. -/
theorem writeCodeblock_slots (st : PoolState) (k i : Nat) (data : List Bool) :
    (writeCodeblock st k i data).slots = st.slots ∧
    (writeCodeblock st k i data).closed = st.closed ∧
    (writeCodeblock st k i data).store.free = st.store.free := by
  rcases h : st.slots[k]? with _ | s
  · simp [writeCodeblock, h]
  · rcases h2 : s.cbs[i]? with _ | cb
    · simp [writeCodeblock, h, h2]
    · simp [writeCodeblock, h, h2]

/-- C2: a successful reserve of identifier X with n codeblocks, followed by
a write of soft bits into one of its codeblocks, a release of the handle,
and a re-reserve of X with the same n, returns the same slot with the same
codeblock storage locations, and leaves the store — hence the written
soft-bit content — exactly as it was after the write: releasing and
re-reserving never clears or modifies retained codeblock content. -/
theorem C2_content_persists_across_lock_cycle (st : PoolState) (t1 t2 t3 : Nat)
    (X : trx_buffer_identifier) (n i k : Nat) (data : List Bool) (st1 : PoolState)
    (hres : reserve t1 X n st = (st1, some k)) :
    ∃ (s1 : ReservationSlot) (st4 : PoolState),
      st1.slots[k]? = some s1 ∧ s1.cbs.length = n ∧
      reserve t3 X n (release t2 k (writeCodeblock st1 k i data)) = (st4, some k) ∧
      st4.slots[k]? = some { s1 with last_access := t3 } ∧
      st4.store = (writeCodeblock st1 k i data).store := by
  have main : ∃ s1 : ReservationSlot,
      st1.slots[k]? = some s1 ∧ s1.ident = some X ∧ s1.locked = true ∧
      s1.cbs.length = n ∧ findId X st1.slots = some (k, s1) ∧
      st1.closed = false ∧ k < st1.slots.length := by
    by_cases hc : st.closed
    · simp [reserve, hc] at hres
    · have hcf : st.closed = false := by simpa using hc
      rcases hfind : findId X st.slots with _ | ⟨j, s⟩
      · rcases hfree : findFree st.slots with _ | j
        · simp [reserve, hcf, hfind, hfree] at hres
        · rcases hacq : CodeblockStore.acquire n st.store with _ | ⟨cbs2, store2⟩
          · simp [reserve, hcf, hfind, hfree, hacq] at hres
          · have hjlt : j < st.slots.length := findFree_isLt st.slots j hfree
            simp [reserve, hcf, hfind, hfree, hacq] at hres
            obtain ⟨hst1, hk⟩ := hres
            subst hk
            subst hst1
            refine ⟨⟨some X, true, cbs2, t1⟩, ?_, rfl, rfl,
              acquire_length _ _ _ _ hacq, ?_, rfl, ?_⟩
            · simp [List.getElem?_set_self hjlt]
            · exact findId_set_none X _ rfl st.slots j hfind hjlt
            · simpa using hjlt
      · have hjs := findId_isLt X st.slots j s hfind
        have hident := findId_ident X st.slots j s hfind
        by_cases hl : s.locked
        · simp [reserve, hcf, hfind, hl] at hres
        · have hlf : s.locked = false := by simpa using hl
          by_cases hn : n = s.cbs.length
          · simp [reserve, hcf, hfind, hlf, hn] at hres
            obtain ⟨hst1, hk⟩ := hres
            subst hk
            subst hst1
            refine ⟨{ s with locked := true, last_access := t1 }, ?_, hident, rfl,
              hn.symm, ?_, rfl, ?_⟩
            · simp [List.getElem?_set_self hjs.1]
            · exact findId_set_found X { s with locked := true, last_access := t1 }
                hident st.slots j s hfind
            · simpa using hjs.1
          · rcases hresz : CodeblockStore.resize s.cbs n st.store with _ | ⟨cbs2, store2⟩
            · simp [reserve, hcf, hfind, hlf, hn, hresz] at hres
            · simp [reserve, hcf, hfind, hlf, hn, hresz] at hres
              obtain ⟨hst1, hk⟩ := hres
              subst hk
              subst hst1
              refine ⟨{ s with locked := true, cbs := cbs2, last_access := t1 }, ?_,
                hident, rfl, resize_length _ _ _ _ _ hresz, ?_, rfl, ?_⟩
              · simp [List.getElem?_set_self hjs.1]
              · exact findId_set_found X { s with locked := true, cbs := cbs2, last_access := t1 }
                  hident st.slots j s hfind
              · simpa using hjs.1
  obtain ⟨s1, hA, hB, hC, hD, hE, hF, hK⟩ := main
  obtain ⟨hWs, hWc, _⟩ := writeCodeblock_slots st1 k i data
  have hrel : release t2 k (writeCodeblock st1 k i data) =
      { writeCodeblock st1 k i data with
        slots := st1.slots.set k { s1 with locked := false, last_access := t2 } } := by
    simp [release, hWs, hA]
  have hfind3 : findId X (st1.slots.set k { s1 with locked := false, last_access := t2 }) =
      some (k, { s1 with locked := false, last_access := t2 }) :=
    findId_set_found X { s1 with locked := false, last_access := t2 } hB st1.slots k s1 hE
  have hres2 : reserve t3 X n (release t2 k (writeCodeblock st1 k i data)) =
      ({ writeCodeblock st1 k i data with
          slots := (st1.slots.set k { s1 with locked := false, last_access := t2 }).set k
            { s1 with locked := true, last_access := t3 } }, some k) := by
    rw [hrel]
    simp [reserve, hWc, hF, hfind3, hD]
  have hslot : ({ s1 with locked := true, last_access := t3 } : ReservationSlot) =
      { s1 with last_access := t3 } := by
    rw [← hC]
  refine ⟨s1,
    { writeCodeblock st1 k i data with
        slots := (st1.slots.set k { s1 with locked := false, last_access := t2 }).set k
          { s1 with locked := true, last_access := t3 } },
    hA, hD, hres2, ?_, rfl⟩
  simp only [List.set_set]
  rw [hslot]
  exact List.getElem?_set_self hK

/-- Witness for C2 at a concrete pool: after reserving identifier (5, 0),
writing a bit, releasing and re-reserving, the same slot is handed out
again. -/
theorem C2_content_persists_across_lock_cycle_witness :
    (reserve 3 ⟨5, 0⟩ 1 (release 2 0 (writeCodeblock
      (reserve 1 ⟨5, 0⟩ 1 (initPool 1 1 4)).1 0 0 [true]))).2 = some 0 := by
  obtain ⟨s1, st4, h1, h2, h3, h4, h5⟩ :=
    C2_content_persists_across_lock_cycle (initPool 1 1 4) 1 2 3 ⟨5, 0⟩ 1 0 0 [true]
      (reserve 1 ⟨5, 0⟩ 1 (initPool 1 1 4)).1 (by decide)
  rw [h3]

/-- A successful acquire removes exactly the handed-out codeblocks from
the free set and keeps the content untouched. -/
theorem acquire_free (n : Nat) (store : CodeblockStore)
    (cbs2 : List Nat) (store2 : CodeblockStore)
    (h : CodeblockStore.acquire n store = some (cbs2, store2)) :
    store2.free.length + n = store.free.length ∧ store2.content = store.content := by
  unfold CodeblockStore.acquire at h
  by_cases hn : n ≤ store.free.length
  · rw [if_pos hn] at h
    obtain ⟨h1, h2⟩ := Prod.mk.injEq _ _ _ _ ▸ Option.some.inj h
    subst h2
    constructor
    · simp
      omega
    · rfl
  · rw [if_neg hn] at h; simp at h

/-- A successful resize conserves the total count of codeblocks between the
assignment and the free set, and keeps the content untouched. -/
theorem resize_free (cur : List Nat) (n : Nat) (store : CodeblockStore)
    (cbs2 : List Nat) (store2 : CodeblockStore)
    (h : CodeblockStore.resize cur n store = some (cbs2, store2)) :
    store2.free.length + n = store.free.length + cur.length ∧
    store2.content = store.content := by
  unfold CodeblockStore.resize at h
  by_cases hn : n ≤ cur.length
  · rw [if_pos hn] at h
    obtain ⟨h1, h2⟩ := Prod.mk.injEq _ _ _ _ ▸ Option.some.inj h
    subst h2
    constructor
    · simp [CodeblockStore.release]
      omega
    · rfl
  · rw [if_neg hn] at h
    rcases ha : CodeblockStore.acquire (n - cur.length) store with _ | ⟨extra, store3⟩
    · rw [ha] at h; simp at h
    · rw [ha] at h
      obtain ⟨h1, h2⟩ := Prod.mk.injEq _ _ _ _ ▸ Option.some.inj h
      subst h2
      obtain ⟨ha1, ha2⟩ := acquire_free _ _ _ _ ha
      exact ⟨by omega, ha2⟩

/-- Replacing one valid entry of a list changes the sum of a mapped value
by the difference at that entry, stated additively. -/
theorem sum_map_set (f : ReservationSlot → Nat) :
    ∀ (l : List ReservationSlot) (k : Nat) (s v : ReservationSlot),
      l[k]? = some s →
      ((l.set k v).map f).sum + f s = (l.map f).sum + f v := by
  intro l
  induction l with
  | nil => intro k s v h; simp at h
  | cons s0 rest ih =>
    intro k s v h
    cases k with
    | zero =>
      have h0 : s0 = s := by simpa using h
      subst h0
      simp only [List.set_cons_zero, List.map_cons, List.sum_cons]
      omega
    | succ k2 =>
      have h2 : rest[k2]? = some s := by simpa using h
      have ih2 := ih k2 s v h2
      simp only [List.set_cons_succ, List.map_cons, List.sum_cons]
      omega

/-- The housekeeping tick conserves the total count of codeblocks between
the slots and the free set of the store. -/
theorem run_slot_conserves (tick : Nat) (st : PoolState) :
    quota (run_slot tick st) + (run_slot tick st).store.free.length =
      quota st + st.store.free.length := by
  have hsum : ∀ l : List ReservationSlot,
      ((l.map (slotStep st.expire_timeout tick)).map (fun s => s.cbs.length)).sum +
        ((l.map (fun s => if evicts st.expire_timeout tick s then s.cbs else [])).map
          List.length).sum =
      (l.map (fun s => s.cbs.length)).sum := by
    intro l
    induction l with
    | nil => simp
    | cons s rest ih =>
      simp only [List.map_cons, List.sum_cons]
      have hs : (slotStep st.expire_timeout tick s).cbs.length +
          (if evicts st.expire_timeout tick s then s.cbs else []).length =
          s.cbs.length := by
        unfold slotStep evicts
        rcases hid : s.ident with _ | v
        · simp [hid]
        · by_cases hl : s.locked
          · simp [hid, hl]
          · by_cases ht : st.expire_timeout ≤ tick - s.last_access
            · simp [hid, hl, ht]
            · simp [hid, hl, ht]
      omega
  have := hsum st.slots
  simp only [run_slot, quota, CodeblockStore.release, List.length_append,
    List.length_flatten]
  omega

/-- A reserve call never increases the total count of codeblocks held by
slots and free set together. -/
theorem reserve_conserves (tick : Nat) (id : trx_buffer_identifier) (n : Nat)
    (st : PoolState) :
    quota (reserve tick id n st).1 + (reserve tick id n st).1.store.free.length ≤
      quota st + st.store.free.length := by
  by_cases hc : st.closed
  · simp [reserve, hc]
  · have hcf : st.closed = false := by simpa using hc
    rcases hfind : findId id st.slots with _ | ⟨k, s⟩
    · rcases hfree : findFree st.slots with _ | k
      · simp [reserve, hcf, hfind, hfree]
      · rcases hacq : CodeblockStore.acquire n st.store with _ | ⟨cbs2, store2⟩
        · simp [reserve, hcf, hfind, hfree, hacq]
        · have hk : k < st.slots.length := findFree_isLt st.slots k hfree
          have hget : st.slots[k]? = some st.slots[k] := List.getElem?_eq_getElem hk
          have hsum : ((st.slots.set k
                ⟨some id, true, cbs2, tick⟩).map (fun s => s.cbs.length)).sum +
                st.slots[k].cbs.length =
              (st.slots.map (fun s => s.cbs.length)).sum + cbs2.length := by
            simpa using sum_map_set (fun s => s.cbs.length) st.slots k st.slots[k]
              ⟨some id, true, cbs2, tick⟩ hget
          have hlen := acquire_length n st.store cbs2 store2 hacq
          obtain ⟨hfl, _⟩ := acquire_free n st.store cbs2 store2 hacq
          simp only [reserve, hcf, Bool.false_eq_true, if_false, hfind, hfree, hacq,
            quota]
          omega
    · have hjs := findId_isLt id st.slots k s hfind
      by_cases hl : s.locked
      · simp [reserve, hcf, hfind, hl]
      · have hlf : s.locked = false := by simpa using hl
        by_cases hn : n = s.cbs.length
        · have hsum : ((st.slots.set k
                { s with locked := true, last_access := tick }).map
                  (fun s => s.cbs.length)).sum + s.cbs.length =
              (st.slots.map (fun s => s.cbs.length)).sum + s.cbs.length := by
            simpa using sum_map_set (fun s => s.cbs.length) st.slots k s
              { s with locked := true, last_access := tick } hjs.2
          simp only [reserve, hcf, Bool.false_eq_true, if_false, hfind, hlf, hn,
            if_true, quota]
          omega
        · rcases hresz : CodeblockStore.resize s.cbs n st.store with _ | ⟨cbs2, store2⟩
          · simp [reserve, hcf, hfind, hlf, hn, hresz]
          · have hsum : ((st.slots.set k
                  { s with locked := true, cbs := cbs2, last_access := tick }).map
                    (fun s => s.cbs.length)).sum + s.cbs.length =
                (st.slots.map (fun s => s.cbs.length)).sum + cbs2.length := by
              simpa using sum_map_set (fun s => s.cbs.length) st.slots k s
                { s with locked := true, cbs := cbs2, last_access := tick } hjs.2
            have hlen := resize_length s.cbs n st.store cbs2 store2 hresz
            obtain ⟨hfl, _⟩ := resize_free s.cbs n st.store cbs2 store2 hresz
            simp only [reserve, hcf, Bool.false_eq_true, if_false, hfind, hlf, hn,
              if_false, hresz, quota]
            omega

/-- In every reachable state of a pool with codeblock budget M, the slots
and the free set together hold at most M codeblocks. -/
theorem reachable_budget (N M T : Nat) :
    ∀ st : PoolState, Reachable N M T st →
      quota st + st.store.free.length ≤ M := by
  intro st h
  induction h with
  | init => simp [initPool, quota, emptySlot]
  | step_reserve tick id n st2 _ ih =>
    exact le_trans (reserve_conserves tick id n st2) ih
  | step_release tick k st2 _ ih =>
    have : quota (release tick k st2) = quota st2 ∧
        (release tick k st2).store = st2.store := by
      unfold release
      rcases hget : st2.slots[k]? with _ | s
      · exact ⟨rfl, rfl⟩
      · constructor
        · have hsum : ((st2.slots.set k
                { s with locked := false, last_access := tick }).map
                  (fun s => s.cbs.length)).sum + s.cbs.length =
              (st2.slots.map (fun s => s.cbs.length)).sum + s.cbs.length := by
            simpa using sum_map_set (fun s => s.cbs.length) st2.slots k s
              { s with locked := false, last_access := tick } hget
          simp only [quota]
          omega
        · rfl
    rw [this.1, this.2]
    exact ih
  | step_run tick st2 _ ih =>
    rw [run_slot_conserves tick st2]
    exact ih
  | step_stop st2 _ ih => exact ih
  | step_write k i data st2 _ ih =>
    obtain ⟨hs, _, hf⟩ := writeCodeblock_slots st2 k i data
    simp only [quota, hs, hf]
    exact ih

/-- C6 counterexample: the claim quantifies over every pool configured with
nof_codeblocks = c, but on a pool configured with no buffer slots
(nof_buffers = 0) the single reservation requesting all c codeblocks from
the empty pool fails instead of succeeding. -/
theorem C6_counterexample_no_slot :
    (reserve 0 ⟨0, 0⟩ 1 (initPool 0 1 10)).2 = none := by decide

/-- C6 (amended): for every pool configured with nof_codeblocks = M and at
least one buffer slot, a single reservation requesting M codeblocks from
the empty pool succeeds; while it is held, every reservation of a
different identifier requesting at least one codeblock fails; and in every
reachable state the sum of codeblock quotas over all slots never exceeds
M. -/
theorem C6_codeblock_budget (N M T tick : Nat) (id : trx_buffer_identifier)
    (hN : 1 ≤ N) :
    (reserve tick id M (initPool N M T)).2 = some 0 ∧
    (∀ t2 id2 n, id2 ≠ id → 1 ≤ n →
      (reserve t2 id2 n (reserve tick id M (initPool N M T)).1).2 = none) ∧
    (∀ st : PoolState, Reachable N M T st → quota st ≤ M) := by
  obtain ⟨N2, rfl⟩ : ∃ N2, N = N2 + 1 := ⟨N - 1, by omega⟩
  have hfind1 : findId id (emptySlot :: List.replicate N2 emptySlot) = none := by
    apply findId_eq_none
    intro s hs
    rcases List.mem_cons.1 hs with h | h
    · rw [h]; simp [emptySlot]
    · rw [List.eq_of_mem_replicate h]; simp [emptySlot]
  have hfree1 : findFree (emptySlot :: List.replicate N2 emptySlot) = some 0 := by
    simp [findFree, emptySlot]
  have htake : (List.range M).take M = List.range M :=
    List.take_of_length_le (by simp)
  have hdrop : (List.range M).drop M = [] :=
    List.drop_eq_nil_of_le (by simp)
  have hacq1 : CodeblockStore.acquire M
      ({ free := List.range M, content := List.replicate M [] } : CodeblockStore) =
      some (List.range M, { free := [], content := List.replicate M [] }) := by
    simp [CodeblockStore.acquire, htake, hdrop]
  have hres1 : reserve tick id M (initPool (N2 + 1) M T) =
      ({ slots := ⟨some id, true, List.range M, tick⟩ :: List.replicate N2 emptySlot
         store := { free := [], content := List.replicate M [] }
         expire_timeout := T, closed := false }, some 0) := by
    simp [reserve, initPool, hfind1, hfree1, hacq1, List.replicate_succ]
  refine ⟨by rw [hres1], ?_, ?_⟩
  · intro t2 id2 n hne hn1
    rw [hres1]
    have hfind2 : findId id2
        (⟨some id, true, List.range M, tick⟩ :: List.replicate N2 emptySlot) = none := by
      apply findId_eq_none
      intro s hs
      rcases List.mem_cons.1 hs with h | h
      · subst h
        exact fun hcontra => hne (Option.some.inj hcontra).symm
      · rw [List.eq_of_mem_replicate h]
        simp [emptySlot]
    have hacq2 : CodeblockStore.acquire n
        ({ free := [], content := List.replicate M [] } : CodeblockStore) = none := by
      simp [CodeblockStore.acquire]
      omega
    rcases hff : findFree (List.replicate N2 emptySlot) with _ | j
    · simp [reserve, hfind2, findFree, hff]
    · simp [reserve, hfind2, findFree, hff, hacq2]
  · intro st hr
    have := reachable_budget (N2 + 1) M T st hr
    omega

/-- Witness for C6 at a concrete pool: on a two-slot pool with three
codeblocks, one reservation takes the whole codeblock budget. -/
theorem C6_codeblock_budget_witness :
    (reserve 0 ⟨9, 9⟩ 3 (initPool 2 3 10)).2 = some 0 :=
  (C6_codeblock_budget 2 3 10 0 ⟨9, 9⟩ (by decide)).1

/-- Tables whose every slot is occupied have no free slot to find. -/
theorem findFree_eq_none :
    ∀ l : List ReservationSlot, (∀ s ∈ l, s.ident ≠ none) → findFree l = none := by
  intro l
  induction l with
  | nil => intro _; rfl
  | cons s0 rest ih =>
    intro h
    unfold findFree
    rw [if_neg (h s0 (List.mem_cons_self s0 rest))]
    rw [ih (fun s hs => h s (List.mem_cons_of_mem s0 hs))]
    rfl

/-- Searching for a free slot skips a fully occupied block, shifting the
found index by its length. -/
theorem findFree_append (l1 l2 : List ReservationSlot)
    (h : ∀ s ∈ l1, s.ident ≠ none) :
    findFree (l1 ++ l2) = (findFree l2).map (· + l1.length) := by
  induction l1 with
  | nil =>
    rcases h2 : findFree l2 with _ | j
    · simp [h2]
    · simp [h2]
  | cons s0 rest ih =>
    rw [List.cons_append]
    simp only [findFree]
    rw [if_neg (h s0 (List.mem_cons_self s0 rest))]
    rw [ih (fun s hs => h s (List.mem_cons_of_mem s0 hs))]
    rcases h2 : findFree l2 with _ | j
    · rfl
    · simp
      omega

/-- Setting the entry just after a block replaces the head of the tail. -/
theorem set_append_len (l1 l2 : List ReservationSlot) (v : ReservationSlot) :
    (l1 ++ l2).set l1.length v = l1 ++ l2.set 0 v := by
  induction l1 with
  | nil => simp
  | cons a l ih => simp [ih]

/-- State of a pool with k slots, M codeblocks and timeout T after the
first i identifiers (r, 0), r < i, have each been reserved with one
codeblock at the given tick, in increasing order of r. -/
def stateAfter (k M T tick i : Nat) : PoolState :=
  { slots := (List.range i).map
        (fun r => (⟨some ⟨r, 0⟩, true, [r], tick⟩ : ReservationSlot))
      ++ List.replicate (k - i) emptySlot
    store := { free := List.range' i (M - i), content := List.replicate M [] }
    expire_timeout := T
    closed := false }

/-- Reserving the next identifier (i, 0) with one codeblock moves the pool
from the state after i reservations to the state after i + 1. -/
theorem reserve_stateAfter (k M T tick i : Nat) (hik : i < k) (hiM : i < M) :
    reserve tick ⟨i, 0⟩ 1 (stateAfter k M T tick i) =
      (stateAfter k M T tick (i + 1), some i) := by
  obtain ⟨d, hd⟩ : ∃ d, k - i = d + 1 := ⟨k - i - 1, by omega⟩
  obtain ⟨e, he⟩ : ∃ e, M - i = e + 1 := ⟨M - i - 1, by omega⟩
  have hd2 : k - (i + 1) = d := by omega
  have he2 : M - (i + 1) = e := by omega
  have hlen1 : ((List.range i).map
      (fun r => (⟨some ⟨r, 0⟩, true, [r], tick⟩ : ReservationSlot))).length = i := by
    simp
  have hfind : findId ⟨i, 0⟩ ((List.range i).map
      (fun r => (⟨some ⟨r, 0⟩, true, [r], tick⟩ : ReservationSlot))
      ++ List.replicate (k - i) emptySlot) = none := by
    apply findId_eq_none
    intro s hs
    rcases List.mem_append.1 hs with h | h
    · obtain ⟨r, hr, rfl⟩ := List.mem_map.1 h
      have hri : r < i := List.mem_range.1 hr
      intro hcontra
      have hr2 : r = i :=
        congrArg trx_buffer_identifier.rnti (Option.some.inj hcontra)
      omega
    · rw [List.eq_of_mem_replicate h]
      simp [emptySlot]
  have hfree : findFree ((List.range i).map
      (fun r => (⟨some ⟨r, 0⟩, true, [r], tick⟩ : ReservationSlot))
      ++ List.replicate (k - i) emptySlot) = some i := by
    rw [findFree_append]
    · rw [hd, List.replicate_succ]
      have h0 : findFree (emptySlot :: List.replicate d emptySlot) = some 0 := by
        simp [findFree, emptySlot]
      rw [h0, hlen1]
      simp
    · intro s hs
      obtain ⟨r, hr, rfl⟩ := List.mem_map.1 hs
      simp
  have hacq : CodeblockStore.acquire 1
      ({ free := List.range' i (M - i), content := List.replicate M [] } :
        CodeblockStore) =
      some ([i], { free := List.range' (i + 1) (M - (i + 1))
                   content := List.replicate M [] }) := by
    rw [he, List.range'_succ, he2]
    simp [CodeblockStore.acquire]
  have hset : (((List.range i).map
        (fun r => (⟨some ⟨r, 0⟩, true, [r], tick⟩ : ReservationSlot))
        ++ List.replicate (k - i) emptySlot).set i
          ⟨some ⟨i, 0⟩, true, [i], tick⟩) =
      (List.range (i + 1)).map
        (fun r => (⟨some ⟨r, 0⟩, true, [r], tick⟩ : ReservationSlot))
      ++ List.replicate (k - (i + 1)) emptySlot := by
    have h1 := set_append_len ((List.range i).map
        (fun r => (⟨some ⟨r, 0⟩, true, [r], tick⟩ : ReservationSlot)))
      (List.replicate (k - i) emptySlot) ⟨some ⟨i, 0⟩, true, [i], tick⟩
    rw [hlen1] at h1
    rw [h1, hd, hd2, List.replicate_succ, List.set_cons_zero, List.range_succ,
      List.map_append]
    simp
  simp only [stateAfter, reserve, hfind, hfree, hacq, hset]
  simp

/-- Reserving the identifiers (i, 0), ..., (k - 1, 0) in order, one
codeblock each, from the state after i reservations succeeds for all of
them and reaches the fully reserved state. -/
theorem reserveAll_stateAfter (k M T tick : Nat) (hkM : k ≤ M) :
    ∀ (j i : Nat), i + j = k →
      reserveAll tick
          ((List.range' i j).map (fun r => (⟨r, 0⟩ : trx_buffer_identifier))) 1
          (stateAfter k M T tick i) =
        (stateAfter k M T tick k, (List.range' i j).map some) := by
  intro j
  induction j with
  | zero =>
    intro i hi
    have : i = k := by omega
    subst this
    rfl
  | succ j ih =>
    intro i hi
    rw [List.range'_succ, List.map_cons, List.map_cons]
    simp only [reserveAll]
    rw [reserve_stateAfter k M T tick i (by omega) (by omega)]
    rw [ih (i + 1) (by omega)]

/-- C5 counterexample: the claim quantifies over every pool configured with
nof_buffers = k, but on a pool with one buffer slot and no codeblocks
(nof_codeblocks = 0) the very first of the k reservations fails instead of
succeeding. -/
theorem C5_counterexample_no_codeblocks :
    (reserveAll 0 ((List.range 1).map (fun r => (⟨r, 0⟩ : trx_buffer_identifier))) 1
      (initPool 1 0 10)).2 = [none] := by decide

/-- C5 (amended): for every pool configured with nof_buffers = k and a
codeblock budget of at least k, reserving k distinct identifiers with one
codeblock each from the empty pool all succeed, and a reservation of a
(k + 1)-th distinct identifier fails while all k handles remain held. -/
theorem C5_buffer_capacity (k M T tick : Nat) (hkM : k ≤ M) :
    (reserveAll tick
        ((List.range k).map (fun r => (⟨r, 0⟩ : trx_buffer_identifier))) 1
        (initPool k M T)).2 = (List.range k).map some ∧
    (reserve tick ⟨k, 0⟩ 1
      (reserveAll tick
        ((List.range k).map (fun r => (⟨r, 0⟩ : trx_buffer_identifier))) 1
        (initPool k M T)).1).2 = none := by
  have hinit : initPool k M T = stateAfter k M T tick 0 := by
    simp [initPool, stateAfter, List.range_eq_range']
  have hmain := reserveAll_stateAfter k M T tick hkM k 0 (by omega)
  rw [List.range_eq_range', hinit, hmain]
  refine ⟨rfl, ?_⟩
  have hfind : findId ⟨k, 0⟩ ((List.range k).map
      (fun r => (⟨some ⟨r, 0⟩, true, [r], tick⟩ : ReservationSlot))) = none := by
    apply findId_eq_none
    intro s hs
    obtain ⟨r, hr, rfl⟩ := List.mem_map.1 hs
    have hrk : r < k := List.mem_range.1 hr
    intro hcontra
    have hr2 : r = k :=
      congrArg trx_buffer_identifier.rnti (Option.some.inj hcontra)
    omega
  have hfree : findFree ((List.range k).map
      (fun r => (⟨some ⟨r, 0⟩, true, [r], tick⟩ : ReservationSlot))) = none := by
    apply findFree_eq_none
    intro s hs
    obtain ⟨r, hr, rfl⟩ := List.mem_map.1 hs
    simp
  simp [stateAfter, reserve, hfind, hfree]

/-- Witness for C5 at a concrete pool: two identifiers fill a two-slot
pool, and a third distinct identifier is refused. -/
theorem C5_buffer_capacity_witness :
    (reserveAll 0 ((List.range 2).map (fun r => (⟨r, 0⟩ : trx_buffer_identifier))) 1
        (initPool 2 2 10)).2 = (List.range 2).map some ∧
    (reserve 0 ⟨2, 0⟩ 1
      (reserveAll 0 ((List.range 2).map (fun r => (⟨r, 0⟩ : trx_buffer_identifier))) 1
        (initPool 2 2 10)).1).2 = none :=
  C5_buffer_capacity 2 2 10 0 (by decide)

/-- Demonstration state for C3: a one-slot pool with timeout 4 whose only
slot is occupied by identifier (1, 0), unlocked since tick 2, holding
codeblock 0. -/
def graceDemoState : PoolState :=
  { slots := [{ ident := some ⟨1, 0⟩, locked := false, cbs := [0], last_access := 2 }]
    store := { free := [], content := [[]] }
    expire_timeout := 4
    closed := false }

/-- Witness for C3 at a concrete pool: at tick 6 the slot unlocked at tick 2
with timeout 4 is evicted, and a reservation of a fresh identifier that was
refused on the full pool succeeds on the post-eviction pool. -/
theorem C3_unlocked_slot_expires_at_timeout_witness :
    ((run_slot 6 graceDemoState).slots[0]? =
      some { ident := none, locked := false, cbs := [], last_access := 2 }) ∧
    (reserve 7 ⟨2, 0⟩ 1 graceDemoState).2 = none ∧
    ((reserve 7 ⟨2, 0⟩ 1 (run_slot 6 graceDemoState)).2).isSome = true := by
  have h := (C3_unlocked_slot_expires_at_timeout graceDemoState 0
    { ident := some ⟨1, 0⟩, locked := false, cbs := [0], last_access := 2 }
    6 (by decide) (by decide) (by decide)).2 (by decide)
  have h2 := h.2.2 7 ⟨2, 0⟩ 1 (by decide) (by decide) (by decide) (by decide)
  exact ⟨h.1, h2.1, h2.2⟩

end SrsranModel

namespace UniqueFunction

/-- C10: a default-constructed unique_function is empty; the source of a
move construction or move assignment is always left empty (is_empty
answers true); and invoking the call operator of any empty unique_function
never returns a value: it deterministically terminates the program with
the bad-function-call diagnostic. -/
theorem C10_empty_call_terminates (I O : Type) (cap1 cap2 : Nat)
    (l rhs uf : UF (I → O)) (x : I) :
    (UF.default : UF (I → O)).is_empty = true ∧
    ((UF.moveConstruct cap1 cap2 rhs).2).is_empty = true ∧
    ((UF.moveAssign cap1 cap2 l rhs).2).is_empty = true ∧
    (uf.is_empty = true →
      UF.call uf x = CallResult.terminated "bad function call (cause: function ptr is empty)" ∧
      ∀ v : O, UF.call uf x ≠ CallResult.returned v) := by
  refine ⟨rfl, ?_, ?_, ?_⟩
  · unfold UF.moveConstruct
    split
    · rfl
    · split <;> rfl
  · unfold UF.moveAssign UF.moveConstruct
    split
    · rfl
    · split <;> rfl
  · intro h
    cases uf with
    | empty => exact ⟨rfl, fun v hv => by simp [UF.call] at hv⟩
    | small f => simp [UF.is_empty] at h
    | heap f => simp [UF.is_empty] at h
    | heapWrapped inner => simp [UF.is_empty] at h

/-- Witness for C10 at concrete values: the moved-from source of a move is
empty, and calling an empty unique_function over Nat to Nat terminates with
the bad-function-call diagnostic. -/
theorem C10_empty_call_terminates_witness :
    UF.call (UF.empty : UF (Nat → Nat)) 0 =
      CallResult.terminated "bad function call (cause: function ptr is empty)" :=
  ((C10_empty_call_terminates Nat Nat 1 1 UF.empty UF.empty UF.empty 0).2.2.2 (by decide)).1

end UniqueFunction
